import Mathlib

/-!
Verification development for the `ultra-nrepl` repository.

We shallowly embed the wire codec (`src/bencode.rs`), the protocol engine
(`src/nrepl.rs`) and the session manager (`src/nrepl/session.rs`) as Lean
functions over byte lists (`List Nat`, each element `< 256` in intended use),
and prove the specification claims about them.

Conventions:
* Rust byte streams become `List Nat`; reading consumes a prefix.
* Fallible Rust functions returning `Result<_, E>` become `Except E _`.
* Rust code that can `panic!` (via `.unwrap()`) is embedded with an explicit
  `panic` outcome, distinct from both success and typed error.
* The recursive-descent decoder loops of `bencode.rs` are embedded with an
  explicit fuel parameter; `none` means the fuel bound was exhausted (the
  top-level wrapper supplies fuel that is ample for its input).
* `Error::MalformedInput(String)` messages are carried as short literal tags;
  the interpolated dynamic details of the Rust format strings are elided,
  since no claim inspects them.
-/

namespace UltraNrepl

/-! ## Wire codec (`src/bencode.rs`) -/

/-- `bencode::Object` — the decoded value model. -/
inductive Object where
  | list (xs : List Object)
  | dict (ps : List (List Nat × Object))
  | bbytes (bs : List Nat)
  | number (n : Int)

/-- `bencode::Token` — one lexical element (one-token lookahead). -/
inductive Token where
  | list
  | dict
  | int
  | length (n : Nat)
  | bbytes (bs : List Nat)
  | tEnd
deriving DecidableEq

/-- `bencode::Error`. -/
inductive BErr where
  | unexpectedEOF
  | unexpectedToken (c : Nat)
  | expectedDictKey (t : Token)
  | expectedObjectStart (t : Token)
  | badLengthStr
  | malformedInput (msg : String)
  | ioError
  | strReadError (n : Nat)
deriving DecidableEq

/-- `BufRead::read_until(delim)`: consume up to and including the first
occurrence of `delim`, or the whole stream if absent. Returns (consumed, rest). -/
def read_until (delim : Nat) : List Nat → (List Nat × List Nat)
  | [] => ([], [])
  | b :: rest =>
    if b = delim then ([b], rest)
    else
      let (c, r) := read_until delim rest
      (b :: c, r)

/-- Digit-fold helper for ASCII decimal parsing. `none` on a non-digit byte. -/
def digits_val : List Nat → Nat → Option Nat
  | [], acc => some acc
  | d :: rest, acc =>
    if 48 ≤ d ∧ d ≤ 57 then digits_val rest (acc * 10 + (d - 48)) else none

/-- One-or-more ASCII digits. -/
def parse_digits (ds : List Nat) : Option Nat :=
  if ds.isEmpty then none else digits_val ds 0

/-- `str::parse::<u32>`: optional leading `+`, digits, range check. -/
def parse_u32 (ds : List Nat) : Option Nat :=
  let core :=
    match ds with
    | 43 :: rest => parse_digits rest
    | _ => parse_digits ds
  core.bind fun n => if n ≤ 2 ^ 32 - 1 then some n else none

/-- `str::parse::<i64>`: optional sign, digits, i64 range check. -/
def parse_i64 (bs : List Nat) : Option Int :=
  match bs with
  | 43 :: rest => (parse_digits rest).bind fun n =>
      if n ≤ 2 ^ 63 - 1 then some (n : Int) else none
  | 45 :: rest => (parse_digits rest).bind fun n =>
      if n ≤ 2 ^ 63 then some (-(n : Int)) else none
  | _ => (parse_digits bs).bind fun n =>
      if n ≤ 2 ^ 63 - 1 then some (n : Int) else none

/-- Is `b` a UTF-8 continuation byte? -/
def is_cont (b : Nat) : Bool := 128 ≤ b && b ≤ 191

/-- UTF-8 validation automaton: `pending` continuation bytes remain, and the
next byte must lie in `[lo, hi]` (subsequent continuations in `[128, 191]`). -/
def utf8_run : List Nat → Nat → Nat → Nat → Bool
  | [], pending, _, _ => pending = 0
  | b :: rest, 0, _, _ =>
    if b ≤ 127 then utf8_run rest 0 0 0
    else if 194 ≤ b && b ≤ 223 then utf8_run rest 1 128 191
    else if b = 224 then utf8_run rest 2 160 191
    else if b = 237 then utf8_run rest 2 128 159
    else if (225 ≤ b && b ≤ 236) || b = 238 || b = 239 then utf8_run rest 2 128 191
    else if b = 240 then utf8_run rest 3 144 191
    else if 241 ≤ b && b ≤ 243 then utf8_run rest 3 128 191
    else if b = 244 then utf8_run rest 3 128 143
    else false
  | b :: rest, pending + 1, lo, hi =>
    if lo ≤ b && b ≤ hi then utf8_run rest pending 128 191 else false

/-- UTF-8 validity of a byte sequence, per the standard encoding rules that
`String::from_utf8` enforces (rejecting overlong forms and surrogates). -/
def is_valid_utf8 (l : List Nat) : Bool := utf8_run l 0 0 0

/-- `Decoder::read_length`: the length digits accumulated so far (`pfx`), then
read until `':'`, check the delimiter, UTF-8-decode and parse as `u32`. -/
def read_length (pfx : List Nat) (bs : List Nat) : Except BErr (Nat × List Nat) :=
  let p := read_until 58 bs
  let buf := pfx ++ p.1
  match buf.getLast? with
  | some 58 =>
    let digs := buf.dropLast
    if is_valid_utf8 digs then
      match parse_u32 digs with
      | some n => .ok (n, p.2)
      | none => .error .badLengthStr
    else .error (.malformedInput "Length string error")
  | some _ => .error (.malformedInput "Expected : for length")
  | none => .error .unexpectedEOF

/-- `Decoder::read_str`: read exactly `len` raw bytes; a short stream is an
I/O error (`read_exact` fails with `UnexpectedEof`, wrapped as `IOError`). -/
def read_str (len : Nat) (bs : List Nat) : Except BErr (List Nat × List Nat) :=
  if len ≤ bs.length then .ok (bs.take len, bs.drop len)
  else .error .ioError

/-- `Decoder::read_int`: read until `'e'`; a missing terminator (including an
empty stream) is `UnexpectedEOF`; a non-UTF-8 or non-parsable literal is
`MalformedInput`. -/
def read_int (bs : List Nat) : Except BErr (Int × List Nat) :=
  let p := read_until 101 bs
  match p.1.getLast? with
  | some 101 =>
    let lit := p.1.dropLast
    if is_valid_utf8 lit then
      match parse_i64 lit with
      | some n => .ok (n, p.2)
      | none => .error (.malformedInput "Int parse error")
    else .error (.malformedInput "Int utf8 error")
  | _ => .error .unexpectedEOF

/-- `Decoder::decode_token`: one-byte lookahead classification; end-of-stream
at a token boundary is `Ok(None)`. -/
def decode_token : List Nat → Except BErr (Option Token × List Nat)
  | [] => .ok (none, [])
  | b :: rest =>
    if b = 108 then .ok (some .list, rest)
    else if b = 105 then .ok (some .int, rest)
    else if b = 100 then .ok (some .dict, rest)
    else if b = 101 then .ok (some .tEnd, rest)
    else if 48 ≤ b ∧ b ≤ 57 then
      match read_length [b] rest with
      | .ok (n, r) => .ok (some (.length n), r)
      | .error e => .error e
    else .error (.unexpectedToken b)

/-- Decoder state: the remaining bytes plus the lookahead token stack
(`tokens` in the source; it never holds more than one element). -/
structure DecSt where
  bytes : List Nat
  tokens : List Token
deriving DecidableEq

/-- `Decoder::pop_token` (via `ensure_token`). -/
def pop_token (s : DecSt) : Except BErr (Option Token × DecSt) :=
  match s.tokens with
  | t :: ts => .ok (some t, ⟨s.bytes, ts⟩)
  | [] =>
    match decode_token s.bytes with
    | .ok (t?, rest) => .ok (t?, ⟨rest, []⟩)
    | .error e => .error e

/-- `Decoder::peek_token` (via `ensure_token`): like `pop_token` but the
token stays buffered. -/
def peek_token (s : DecSt) : Except BErr (Option Token × DecSt) :=
  match s.tokens with
  | t :: _ => .ok (some t, s)
  | [] =>
    match decode_token s.bytes with
    | .ok (some t, rest) => .ok (some t, ⟨rest, [t]⟩)
    | .ok (none, rest) => .ok (none, ⟨rest, []⟩)
    | .error e => .error e

mutual

/-- `Decoder::read_object`, fuel-indexed; `none` means out of fuel. -/
def read_object_f : Nat → DecSt → Option (Except BErr (Option Object × DecSt))
  | 0, _ => none
  | fuel + 1, s =>
    match pop_token s with
    | .error e => some (.error e)
    | .ok (none, s1) => some (.ok (none, s1))
    | .ok (some t, s1) =>
      match t with
      | .list => read_list_f fuel s1 []
      | .dict => read_dict_f fuel s1 []
      | .int =>
        match read_int s1.bytes with
        | .error e => some (.error e)
        | .ok (n, rest) => some (.ok (some (.number n), ⟨rest, s1.tokens⟩))
      | .length n =>
        match read_str n s1.bytes with
        | .error e => some (.error e)
        | .ok (sb, rest) => some (.ok (some (.bbytes sb), ⟨rest, s1.tokens⟩))
      | t' => some (.error (.expectedObjectStart t'))

/-- The `Token::List` loop of `read_object`: elements accumulate in arrival
order until the matching end marker; end-of-stream inside is an error. -/
def read_list_f : Nat → DecSt → List Object → Option (Except BErr (Option Object × DecSt))
  | 0, _, _ => none
  | fuel + 1, s, acc =>
    match peek_token s with
    | .error e => some (.error e)
    | .ok (none, _) => some (.error .unexpectedEOF)
    | .ok (some .tEnd, s1) =>
      match pop_token s1 with
      | .error e => some (.error e)
      | .ok (_, s2) => some (.ok (some (.list acc), s2))
    | .ok (some _, s1) =>
      match read_object_f fuel s1 with
      | none => none
      | some (.error e) => some (.error e)
      | some (.ok (none, _)) => some (.error .unexpectedEOF)
      | some (.ok (some o, s2)) => read_list_f fuel s2 (acc ++ [o])

/-- The `Token::Dict` loop of `read_object`. -/
def read_dict_f : Nat → DecSt → List (List Nat × Object) →
    Option (Except BErr (Option Object × DecSt))
  | 0, _, _ => none
  | fuel + 1, s, acc =>
    match peek_token s with
    | .error e => some (.error e)
    | .ok (none, _) => some (.error .unexpectedEOF)
    | .ok (some .tEnd, s1) =>
      match pop_token s1 with
      | .error e => some (.error e)
      | .ok (_, s2) => some (.ok (some (.dict acc), s2))
    | .ok (some _, s1) =>
      match read_dict_pair_f fuel s1 with
      | none => none
      | some (.error e) => some (.error e)
      | some (.ok (kv, s2)) => read_dict_f fuel s2 (acc ++ [kv])

/-- `Decoder::read_dict_pair`: a string-typed key then a value; any other
token in key position is `ExpectedDictKey`. -/
def read_dict_pair_f : Nat → DecSt → Option (Except BErr ((List Nat × Object) × DecSt))
  | 0, _ => none
  | fuel + 1, s =>
    match pop_token s with
    | .error e => some (.error e)
    | .ok (none, _) => some (.error .unexpectedEOF)
    | .ok (some (.length n), s1) =>
      match read_str n s1.bytes with
      | .error e => some (.error e)
      | .ok (k, rest) =>
        match read_object_f fuel ⟨rest, s1.tokens⟩ with
        | none => none
        | some (.error e) => some (.error e)
        | some (.ok (none, _)) => some (.error .unexpectedEOF)
        | some (.ok (some v, s2)) => some (.ok ((k, v), s2))
    | .ok (some t, _) => some (.error (.expectedDictKey t))

end

/-- `Decoder::read_object` on a fresh decoder: ample fuel for the input. -/
def read_object (bs : List Nat) : Option (Except BErr (Option Object × DecSt)) :=
  read_object_f (2 * bs.length + 2) ⟨bs, []⟩

/-- ASCII bytes of a string literal (all our literals are ASCII). -/
def strB (s : String) : List Nat := s.data.map Char.toNat

/-! ## Wire codec — encoder (`impl ToBencode for Op`, `src/nrepl.rs`)

Rust sorts the `Vec<(&str, &str)>` of pairs with `sort()`, i.e. by the
derived tuple order: byte-wise lexicographic on the key, then on the value.
Any correct sort of a list under a total antisymmetric order yields the same
result, so we embed it as insertion sort under that order. -/

/-- Byte-wise lexicographic `≤` on byte strings (Rust `[u8]`/`str` ordering:
a proper prefix precedes its extensions). -/
def lexLeB : List Nat → List Nat → Bool
  | [], _ => true
  | _ :: _, [] => false
  | a :: as, b :: bs => if a < b then true else if b < a then false else lexLeB as bs

/-- The derived Rust order on `(&str, &str)` tuples: key first, then value. -/
def pairLeB (p q : List Nat × List Nat) : Bool :=
  if p.1 = q.1 then lexLeB p.2 q.2 else lexLeB p.1 q.1

/-- `pairLeB` as a relation, for the sort API. -/
def pairLe (p q : List Nat × List Nat) : Prop := pairLeB p q = true

instance : DecidableRel pairLe := fun p q =>
  inferInstanceAs (Decidable (pairLeB p q = true))

/-- ASCII decimal digits of a natural number (string-length prefixes). -/
def dec_digits (n : Nat) : List Nat := (Nat.toDigits 10 n).map Char.toNat

/-- Bencode byte-string encoding: `<len>` `:` `<bytes>`. -/
def enc_str (s : List Nat) : List Nat := dec_digits s.length ++ [58] ++ s

/-- The pair list built by `Op::encode`: `("op", name)` first, then the
arguments in insertion order. -/
def op_pairs (name : List Nat) (args : List (List Nat × List Nat)) :
    List (List Nat × List Nat) :=
  (strB "op", name) :: args

/-- The `pairs.sort()` call. -/
def sort_pairs (ps : List (List Nat × List Nat)) : List (List Nat × List Nat) :=
  List.insertionSort pairLe ps

/-- `Op::encode`: a bencode dict of the sorted pairs. -/
def encode_op (name : List Nat) (args : List (List Nat × List Nat)) : List Nat :=
  100 ::
    ((sort_pairs (op_pairs name args)).foldr
      (fun p acc => enc_str p.1 ++ enc_str p.2 ++ acc) [])
    ++ [101]

/-! ## Protocol engine (`src/nrepl.rs`)

`NreplStream::read_resp` drives `serde_bencode`'s deserializer over the TCP
stream; we model the connection as the list of values the deserializer will
successfully yield before the connection is closed. `serde_bencode`'s
`Value::Dict` is a `HashMap`; we keep the underlying key/value sequence and
fold it with last-occurrence-wins insertion exactly where the source builds a
`HashMap` with `from_iter`. -/

/-- `serde_bencode::value::Value`. -/
inductive BVal where
  | bytes (bs : List Nat)
  | int (n : Int)
  | list (xs : List BVal)
  | dict (ps : List (List Nat × BVal))

/-- `nrepl::RespError`. -/
inductive RespError where
  | expectedMap (v : BVal)
  | expectedString (v : BVal)
  | expectedStrOrArray (v : BVal)
  | badUtf8

/-- `nrepl::Error`. -/
inductive NError where
  | connectionLost
  | bencodeEncodeError
  | ioError
  | badBencodeString
  | duplicatedKeyError (k : List Nat)
  | bencodeDeserializeError
  | bencodeFormatError (e : RespError)

/-- Outcome of Rust code that may also `panic!` (e.g. via `.unwrap()`):
`panic` is distinct from both the success and the typed-error outcome. -/
inductive PRes (ε : Type) (α : Type) where
  | ok (a : α)
  | err (e : ε)
  | panic

/-- `nrepl::Resp` — a field map; keys are the (UTF-8 valid) field names.
We keep the map as an association list with unique keys. -/
abbrev Resp : Type := List (List Nat × BVal)

/-- `HashMap` insertion: replace the value if the key is present, else append. -/
def insert_kv (m : List (List Nat × BVal)) (k : List Nat) (v : BVal) :
    List (List Nat × BVal) :=
  match m with
  | [] => [(k, v)]
  | (k', v') :: rest => if k' = k then (k, v) :: rest else (k', v') :: insert_kv rest k v

/-- `HashMap::from_iter` over the decoded pair sequence: left-to-right
insertion, so a later duplicate key overwrites the earlier value. -/
def build_map (ps : List (List Nat × BVal)) : Resp :=
  ps.foldl (fun m p => insert_kv m p.1 p.2) []

/-- `HashMap::get`/`contains_key` on the association list. -/
def lookup_kv (m : List (List Nat × BVal)) (k : List Nat) : Option BVal :=
  match m with
  | [] => none
  | (k', v) :: rest => if k' = k then some v else lookup_kv rest k

/-- `impl TryFrom<BencodeValue> for Resp` (src/nrepl.rs:172-186): on a dict,
each key goes through `String::from_utf8(k).unwrap()` — an invalid key
panics; the pairs are collected with `HashMap::from_iter`, with no duplicate
check; a non-dict value is the typed `ExpectedMap` error. -/
def resp_try_from : BVal → PRes RespError Resp
  | .dict ps =>
    if ps.all (fun p => is_valid_utf8 p.1) then .ok (build_map ps) else .panic
  | v => .err (.expectedMap v)

/-- `is_final_resp`: a Response is terminal iff it has a `status` field. -/
def is_final_resp (r : Resp) : Bool := (lookup_kv r (strB "status")).isSome

/-- `NreplStream::read_resp`: pull the next value from the deserializer —
`.unwrap()` panics when the stream can yield no further value (connection
closed) — then convert it; a conversion error is wrapped by `?` into
`Error::BencodeFormatError`. -/
def read_resp : List BVal → PRes NError (Resp × List BVal)
  | [] => .panic
  | v :: rest =>
    match resp_try_from v with
    | .panic => .panic
    | .err e => .err (.bencodeFormatError e)
    | .ok r => .ok (r, rest)

/-- `NreplStream::op` (src/nrepl.rs:253-270): loop reading Responses,
pushing each, stopping after the first terminal one. -/
def nrepl_op : List BVal → PRes NError (List Resp)
  | [] => .panic
  | v :: rest =>
    match resp_try_from v with
    | .panic => .panic
    | .err e => .err (.bencodeFormatError e)
    | .ok r =>
      if is_final_resp r then .ok [r]
      else
        match nrepl_op rest with
        | .ok rs => .ok (r :: rs)
        | .err e => .err e
        | .panic => .panic

/-! ## Session manager (`src/nrepl/session.rs`)

The persisted session store is the JSON file mapping server address to
session id; we model it as an association list and the three nREPL effects
(`ls-sessions` listing, `clone` result, persistence) as explicit inputs,
covering the success path whose behavior the claims describe. -/

/-- `HashMap<String, String>` lookup by server address. -/
def lookup_assoc : List (List Nat × List Nat) → List Nat → Option (List Nat)
  | [], _ => none
  | (k, v) :: rest, a => if k = a then some v else lookup_assoc rest a

/-- `sessions.insert(addr, id)`: overwrite the entry for the address. -/
def insert_assoc : List (List Nat × List Nat) → List Nat → List Nat →
    List (List Nat × List Nat)
  | [], a, v => [(a, v)]
  | (k, v') :: rest, a, v =>
    if k = a then (a, v) :: rest else (k, v') :: insert_assoc rest a v

/-- `session_id_exists` (src/nrepl/session.rs:96-106): scan the live
server's `ls-sessions` listing for the identifier. -/
def session_id_exists (server_sessions : List (List Nat)) (sid : List Nat) : Bool :=
  server_sessions.contains sid

/-- Result of session resolution: the returned identifier, the persisted
store afterwards, and whether a `clone` (session-creation) op was issued. -/
structure ResolveResult where
  sid : List Nat
  store : List (List Nat × List Nat)
  created : Bool
deriving DecidableEq

/-- `get_existing_session_id` (src/nrepl/session.rs:108-122): reuse the
persisted id when the live server still lists it; otherwise create a fresh
session (`fresh_id` is what `CloneSession` returns), persist it for the
address, and return it. -/
def get_existing_session_id (store : List (List Nat × List Nat)) (addr : List Nat)
    (server_sessions : List (List Nat)) (fresh_id : List Nat) : ResolveResult :=
  match lookup_assoc store addr with
  | some sid =>
    if session_id_exists server_sessions sid then ⟨sid, store, false⟩
    else ⟨fresh_id, insert_assoc store addr fresh_id, true⟩
  | none => ⟨fresh_id, insert_assoc store addr fresh_id, true⟩

/-! ## Exchange-outcome classification

Modelled from the spec: the `nrepl::Status` classification of the terminal
Response's `status` tokens is consumed by `src/nrepl/ops.rs` (which pattern
matches `nrepl::Status::Done` etc.), but its defining code is not present
under `src/`; the definition below follows the spec's classification table
(§4.3): exactly `["done"]` → Done, exactly `["eval-error"]` → EvalError,
exactly `["done","no-info"]` → NoInfo, anything else → Unclassified with the
raw tokens. -/
inductive Status where
  | done
  | evalError
  | noInfo
  | unclassified (toks : List String)
deriving DecidableEq

/-- Modelled from the spec: classification of the terminal status tokens
(the code implementing it is not under `src/`; see `Status`). -/
def classify_status (toks : List String) : Status :=
  if toks = ["done"] then .done
  else if toks = ["eval-error"] then .evalError
  else if toks = ["done", "no-info"] then .noInfo
  else .unclassified toks

/-! ## Order lemmas for the encoder's pair sort -/

theorem lexLeB_refl : ∀ xs : List Nat, lexLeB xs xs = true := by
  intro xs
  induction xs with
  | nil => rfl
  | cons a as ih => simp [lexLeB, ih]

theorem lexLeB_total : ∀ xs ys : List Nat, lexLeB xs ys = true ∨ lexLeB ys xs = true := by
  intro xs
  induction xs with
  | nil => intro ys; left; rfl
  | cons a as ih =>
    intro ys
    cases ys with
    | nil => right; rfl
    | cons b bs =>
      rcases Nat.lt_trichotomy a b with h | h | h
      · left; simp [lexLeB, h]
      · subst h
        rcases ih bs with h' | h'
        · left; simp [lexLeB, h']
        · right; simp [lexLeB, h']
      · right; simp [lexLeB, h]

theorem lexLeB_trans : ∀ xs ys zs : List Nat,
    lexLeB xs ys = true → lexLeB ys zs = true → lexLeB xs zs = true := by
  intro xs
  induction xs with
  | nil => intro ys zs h1 h2; rfl
  | cons a as ih =>
    intro ys zs h1 h2
    cases ys with
    | nil => simp [lexLeB] at h1
    | cons b bs =>
      cases zs with
      | nil => simp [lexLeB] at h2
      | cons c cs =>
        simp only [lexLeB] at h1 h2 ⊢
        by_cases hab : a < b
        · by_cases hbc : b < c
          · simp [Nat.lt_trans hab hbc]
          · by_cases hcb : c < b
            · simp [hbc, hcb] at h2
            · have hbc' : b = c := Nat.le_antisymm (Nat.le_of_not_lt hcb) (Nat.le_of_not_lt hbc)
              subst hbc'
              simp [hab]
        · by_cases hba : b < a
          · simp [hab, hba] at h1
          · have hab' : a = b := Nat.le_antisymm (Nat.le_of_not_lt hba) (Nat.le_of_not_lt hab)
            subst hab'
            simp only [lt_self_iff_false, if_false] at h1
            by_cases hac : a < c
            · simp [hac]
            · by_cases hca : c < a
              · simp [hac, hca] at h2
              · have hac' : a = c := Nat.le_antisymm (Nat.le_of_not_lt hca) (Nat.le_of_not_lt hac)
                subst hac'
                simp only [lt_self_iff_false, if_false] at h2 ⊢
                exact ih bs cs h1 h2

theorem lexLeB_antisymm : ∀ xs ys : List Nat,
    lexLeB xs ys = true → lexLeB ys xs = true → xs = ys := by
  intro xs
  induction xs with
  | nil =>
    intro ys h1 h2
    cases ys with
    | nil => rfl
    | cons b bs => simp [lexLeB] at h2
  | cons a as ih =>
    intro ys h1 h2
    cases ys with
    | nil => simp [lexLeB] at h1
    | cons b bs =>
      by_cases hab : a < b
      · simp [lexLeB, hab, Nat.lt_asymm hab] at h2
      · by_cases hba : b < a
        · simp [lexLeB, hab, hba] at h1
        · have hab' : a = b := Nat.le_antisymm (Nat.le_of_not_lt hba) (Nat.le_of_not_lt hab)
          subst hab'
          simp only [lexLeB, lt_self_iff_false, if_false] at h1 h2
          rw [ih bs h1 h2]

theorem pairLe_fst {p q : List Nat × List Nat} (h : pairLe p q) :
    lexLeB p.1 q.1 = true := by
  unfold pairLe pairLeB at h
  split at h
  · rename_i he; rw [he]; exact lexLeB_refl _
  · exact h

instance : IsTotal (List Nat × List Nat) pairLe := by
  constructor
  intro p q
  unfold pairLe pairLeB
  by_cases h : p.1 = q.1
  · simp only [h, if_pos rfl, if_true]
    exact lexLeB_total _ _
  · have h' : ¬ q.1 = p.1 := fun e => h e.symm
    rw [if_neg h, if_neg h']
    exact lexLeB_total _ _

instance : IsTrans (List Nat × List Nat) pairLe := by
  constructor
  intro p q r h1 h2
  unfold pairLe pairLeB at h1 h2 ⊢
  by_cases hpq : p.1 = q.1
  · rw [if_pos hpq] at h1
    by_cases hqr : q.1 = r.1
    · rw [if_pos hqr] at h2
      rw [if_pos (hpq.trans hqr)]
      exact lexLeB_trans _ _ _ h1 h2
    · rw [if_neg hqr] at h2
      have hpr : ¬ p.1 = r.1 := fun e => hqr (hpq ▸ e)
      rw [if_neg hpr, hpq]
      exact h2
  · rw [if_neg hpq] at h1
    by_cases hqr : q.1 = r.1
    · rw [if_pos hqr] at h2
      have hpr : ¬ p.1 = r.1 := fun e => hpq (e.trans hqr.symm)
      rw [if_neg hpr, ← hqr]
      exact h1
    · rw [if_neg hqr] at h2
      by_cases hpr : p.1 = r.1
      · exact absurd (hpr.trans (lexLeB_antisymm _ _ h2 (hpr ▸ h1)).symm) hpq
      · rw [if_neg hpr]
        exact lexLeB_trans _ _ _ h1 h2

instance : IsAntisymm (List Nat × List Nat) pairLe := by
  constructor
  intro p q h1 h2
  unfold pairLe pairLeB at h1 h2
  by_cases hpq : p.1 = q.1
  · rw [if_pos hpq] at h1
    rw [if_pos hpq.symm] at h2
    have := lexLeB_antisymm _ _ h1 h2
    exact Prod.ext hpq this
  · rw [if_neg hpq] at h1
    rw [if_neg (fun e => hpq e.symm)] at h2
    exact absurd (lexLeB_antisymm _ _ h1 h2) hpq

/-! ## Helper lemmas -/

theorem lookup_insert_assoc : ∀ (store : List (List Nat × List Nat)) (a v : List Nat),
    lookup_assoc (insert_assoc store a v) a = some v := by
  intro store a v
  induction store with
  | nil => simp [insert_assoc, lookup_assoc]
  | cons p rest ih =>
    rcases p with ⟨k, v'⟩
    by_cases h : k = a
    · simp [insert_assoc, lookup_assoc, h]
    · simp [insert_assoc, lookup_assoc, h, ih]

theorem mem_insert_kv : ∀ (m : List (List Nat × BVal)) (k : List Nat) (v : BVal) (p),
    p ∈ insert_kv m k v → p = (k, v) ∨ p ∈ m := by
  intro m k v p
  induction m with
  | nil =>
    intro h
    simp only [insert_kv, List.mem_singleton] at h
    exact Or.inl h
  | cons q rest ih =>
    rcases q with ⟨k', v'⟩
    intro h
    simp only [insert_kv] at h
    by_cases hk : k' = k
    · rw [if_pos hk] at h
      rcases List.mem_cons.mp h with h | h
      · exact Or.inl h
      · exact Or.inr (List.mem_cons_of_mem _ h)
    · rw [if_neg hk] at h
      rcases List.mem_cons.mp h with h | h
      · exact Or.inr (h ▸ List.mem_cons_self _ _)
      · rcases ih h with h | h
        · exact Or.inl h
        · exact Or.inr (List.mem_cons_of_mem _ h)

theorem build_map_keys_valid : ∀ (ps m : List (List Nat × BVal)),
    (∀ p ∈ m, is_valid_utf8 p.1 = true) → (∀ q ∈ ps, is_valid_utf8 q.1 = true) →
    ∀ p ∈ ps.foldl (fun m p => insert_kv m p.1 p.2) m, is_valid_utf8 p.1 = true := by
  intro ps
  induction ps with
  | nil => intro m hm _ p hp; exact hm p hp
  | cons q rest ih =>
    intro m hm hq p hp
    simp only [List.foldl_cons] at hp
    refine ih _ ?_ (fun q' hq' => hq q' (List.mem_cons_of_mem _ hq')) p hp
    intro p' hp'
    rcases mem_insert_kv _ _ _ _ hp' with h | h
    · rw [h]; exact hq q (List.mem_cons_self _ _)
    · exact hm p' h

theorem lookup_insert_kv_self : ∀ (m : List (List Nat × BVal)) (k : List Nat) (v : BVal),
    lookup_kv (insert_kv m k v) k = some v := by
  intro m k v
  induction m with
  | nil => simp [insert_kv, lookup_kv]
  | cons p rest ih =>
    rcases p with ⟨k', v'⟩
    by_cases h : k' = k
    · simp [insert_kv, h, lookup_kv]
    · simp [insert_kv, h, lookup_kv, ih]

theorem lookup_insert_kv_other : ∀ (m : List (List Nat × BVal)) (k k' : List Nat) (v : BVal),
    k ≠ k' → lookup_kv (insert_kv m k v) k' = lookup_kv m k' := by
  intro m k k' v hne
  induction m with
  | nil => simp [insert_kv, lookup_kv, hne]
  | cons p rest ih =>
    rcases p with ⟨k0, v0⟩
    by_cases h : k0 = k
    · subst h
      simp [insert_kv, lookup_kv, hne]
    · simp [insert_kv, h, lookup_kv, ih]

theorem lookup_foldl_no_key : ∀ (ps2 m : List (List Nat × BVal)) (k : List Nat),
    (∀ q ∈ ps2, q.1 ≠ k) →
    lookup_kv (ps2.foldl (fun m p => insert_kv m p.1 p.2) m) k = lookup_kv m k := by
  intro ps2
  induction ps2 with
  | nil => intro m k _; rfl
  | cons p rest ih =>
    intro m k h
    simp only [List.foldl_cons]
    rw [ih _ _ (fun q hq => h q (List.mem_cons_of_mem _ hq))]
    exact lookup_insert_kv_other m p.1 k p.2 (h p (List.mem_cons_self _ _))

theorem build_map_last_wins : ∀ (ps1 ps2 : List (List Nat × BVal)) (k : List Nat) (v : BVal),
    (∀ q ∈ ps2, q.1 ≠ k) →
    lookup_kv (build_map (ps1 ++ (k, v) :: ps2)) k = some v := by
  intro ps1
  suffices h : ∀ (m ps2 : List (List Nat × BVal)) (k : List Nat) (v : BVal),
      (∀ q ∈ ps2, q.1 ≠ k) →
      lookup_kv ((ps1 ++ (k, v) :: ps2).foldl (fun m p => insert_kv m p.1 p.2) m) k
        = some v by
    intro ps2 k v hk
    exact h [] ps2 k v hk
  induction ps1 with
  | nil =>
    intro m ps2 k v hk
    simp only [List.nil_append, List.foldl_cons]
    rw [lookup_foldl_no_key ps2 _ k hk]
    exact lookup_insert_kv_self m k v
  | cons p rest ih =>
    intro m ps2 k v hk
    simp only [List.cons_append, List.foldl_cons]
    exact ih _ ps2 k v hk

theorem resp_try_from_ok_keys : ∀ (v : BVal) (r : Resp), resp_try_from v = .ok r →
    ∀ p ∈ r, is_valid_utf8 p.1 = true := by
  intro v r h
  cases v with
  | dict ps =>
    simp only [resp_try_from] at h
    split at h
    · rename_i hall
      cases h
      intro p hp
      refine build_map_keys_valid ps [] (by intro p' hp'; cases hp') ?_ p hp
      intro q hq
      exact List.all_eq_true.mp hall q hq
    · cases h
  | bytes bs => simp [resp_try_from] at h
  | int n => simp [resp_try_from] at h
  | list xs => simp [resp_try_from] at h

theorem nrepl_op_ok_from : ∀ (vs : List BVal) (rs : List Resp), nrepl_op vs = .ok rs →
    ∀ r ∈ rs, ∃ v, resp_try_from v = .ok r := by
  intro vs
  induction vs with
  | nil => intro rs h; simp [nrepl_op] at h
  | cons v rest ih =>
    intro rs h
    simp only [nrepl_op] at h
    split at h
    · cases h
    · cases h
    · rename_i r0 heq
      split at h
      · cases h
        intro r hr
        rcases List.mem_singleton.mp hr with rfl
        exact ⟨v, heq⟩
      · split at h
        · rename_i rs' heq2
          cases h
          intro r hr
          rcases List.mem_cons.mp hr with rfl | hr
          · exact ⟨v, heq⟩
          · exact ih rs' heq2 r hr
        · cases h
        · cases h

theorem read_until_eq_of_not_mem : ∀ (d : Nat) (bs : List Nat), d ∉ bs →
    read_until d bs = (bs, []) := by
  intro d bs
  induction bs with
  | nil => intro _; rfl
  | cons b rest ih =>
    intro h
    have hb : ¬ b = d := fun e => h (e ▸ List.mem_cons_self _ _)
    have hr : d ∉ rest := fun hm => h (List.mem_cons_of_mem _ hm)
    simp [read_until, hb, ih hr]

theorem mem_of_getLast?_eq : ∀ (bs : List Nat) (c : Nat), bs.getLast? = some c → c ∈ bs := by
  intro bs
  induction bs with
  | nil => intro c h; simp at h
  | cons b rest ih =>
    intro c h
    cases rest with
    | nil =>
      simp only [List.getLast?_singleton, Option.some.injEq] at h
      exact h ▸ List.mem_singleton_self _
    | cons b' rest' =>
      rw [List.getLast?_cons_cons] at h
      exact List.mem_cons_of_mem _ (ih c h)

theorem read_int_no_term : ∀ (bs : List Nat), 101 ∉ bs →
    read_int bs = .error .unexpectedEOF := by
  intro bs h
  have hru : read_until 101 bs = (bs, []) := read_until_eq_of_not_mem 101 bs h
  simp only [read_int, hru]
  split
  · rename_i heq
    exact absurd (mem_of_getLast?_eq _ _ heq) h
  · rfl

theorem read_list_f_shape : ∀ (fuel : Nat) (s : DecSt) (acc : List Object) (r),
    read_list_f fuel s acc = some r →
    (∃ e, r = .error e) ∨ (∃ v s2, r = .ok (some v, s2)) := by
  intro fuel
  induction fuel with
  | zero => intro s acc r h; simp [read_list_f] at h
  | succ n ih =>
    intro s acc r h
    simp only [read_list_f] at h
    split at h
    · cases h; exact Or.inl ⟨_, rfl⟩
    · cases h; exact Or.inl ⟨_, rfl⟩
    · split at h
      · cases h; exact Or.inl ⟨_, rfl⟩
      · cases h; exact Or.inr ⟨_, _, rfl⟩
    · split at h
      · cases h
      · cases h; exact Or.inl ⟨_, rfl⟩
      · cases h; exact Or.inl ⟨_, rfl⟩
      · exact ih _ _ _ h

theorem read_dict_f_shape : ∀ (fuel : Nat) (s : DecSt) (acc : List (List Nat × Object)) (r),
    read_dict_f fuel s acc = some r →
    (∃ e, r = .error e) ∨ (∃ v s2, r = .ok (some v, s2)) := by
  intro fuel
  induction fuel with
  | zero => intro s acc r h; simp [read_dict_f] at h
  | succ n ih =>
    intro s acc r h
    simp only [read_dict_f] at h
    split at h
    · cases h; exact Or.inl ⟨_, rfl⟩
    · cases h; exact Or.inl ⟨_, rfl⟩
    · split at h
      · cases h; exact Or.inl ⟨_, rfl⟩
      · cases h; exact Or.inr ⟨_, _, rfl⟩
    · split at h
      · cases h
      · cases h; exact Or.inl ⟨_, rfl⟩
      · exact ih _ _ _ h

/-! ## Claim theorems -/

/-- **C1.** The exchange operation classifies the terminal Response's status
tokens into a closed set: exactly `["done"]` yields Done, exactly
`["eval-error"]` yields EvalError, exactly `["done","no-info"]` yields
NoInfo, and any other combination yields Unclassified carrying the raw
status tokens verbatim. -/
theorem C1_status_classification :
    classify_status ["done"] = .done ∧
    classify_status ["eval-error"] = .evalError ∧
    classify_status ["done", "no-info"] = .noInfo ∧
    ∀ toks : List String, toks ≠ ["done"] → toks ≠ ["eval-error"] →
      toks ≠ ["done", "no-info"] → classify_status toks = .unclassified toks := by
  refine ⟨rfl, rfl, rfl, ?_⟩
  intro toks h1 h2 h3
  simp [classify_status, h1, h2, h3]

/-- Witness for C1: a status set outside the table is preserved verbatim. -/
theorem C1_witness :
    classify_status ["interrupted"] = .unclassified ["interrupted"] :=
  C1_status_classification.2.2.2 ["interrupted"] (by decide) (by decide) (by decide)

/-- **C2** (code bug). If the connection is closed before a terminal
Response arrives (no further value can be read — here: before any value,
and after one non-terminal Response), `NreplStream::op` does not return the
typed `Error::ConnectionLost`: the `.unwrap()` in `read_resp`
(src/nrepl.rs:247) panics. The result is the `panic` outcome, which is
neither a success nor any typed error — in particular it is never
Done-classified. -/
theorem C2_connection_close_panics :
    nrepl_op [] = PRes.panic ∧
    nrepl_op [.dict [(strB "id", .bytes (strB "1"))]] = PRes.panic :=
  ⟨rfl, rfl⟩

/-- **C3** (counterexample). A decoded map carrying the same key twice is
not rejected with a duplicate-key error: the conversion produces a
Response, with the later occurrence's value. -/
theorem C3_counterexample_duplicate_key_accepted :
    resp_try_from (.dict [(strB "a", .int 1), (strB "a", .int 2)]) =
      PRes.ok [(strB "a", BVal.int 2)] := rfl

/-- **C3** (amended). For every decoded wire map that is re-keyed into a
Response, a key occurring twice within that single map is not rejected: the
conversion never returns a typed error for a map (its outcome is the built
Response, or — when some key is not valid UTF-8 — the key-decoding panic),
with all keys valid UTF-8 it always produces the built Response, and in
that Response the value of a duplicated key is the value of the key's last
occurrence in the map (the later occurrence replaces the earlier). -/
theorem C3_amended_last_wins : ∀ ps : List (List Nat × BVal),
    (resp_try_from (.dict ps) = .ok (build_map ps) ∨
      resp_try_from (.dict ps) = .panic) ∧
    (ps.all (fun p => is_valid_utf8 p.1) = true →
      resp_try_from (.dict ps) = .ok (build_map ps)) ∧
    (∀ (ps1 ps2 : List (List Nat × BVal)) (k : List Nat) (v : BVal),
      ps = ps1 ++ (k, v) :: ps2 → (∀ q ∈ ps2, q.1 ≠ k) →
      lookup_kv (build_map ps) k = some v) := by
  intro ps
  refine ⟨?_, ?_, ?_⟩
  · by_cases h : ps.all (fun p => is_valid_utf8 p.1) = true
    · exact Or.inl (by simp [resp_try_from, h])
    · exact Or.inr (by simp [resp_try_from, h])
  · intro h
    simp [resp_try_from, h]
  · intro ps1 ps2 k v hps hk
    rw [hps]
    exact build_map_last_wins ps1 ps2 k v hk

/-- Witness for C3's amended theorem: a map carrying `"k"` twice converts
to a Response whose value for `"k"` is the later occurrence's. -/
theorem C3_witness :
    resp_try_from (.dict [(strB "k", .int 1), (strB "k", .int 7)]) =
      PRes.ok (build_map [(strB "k", BVal.int 1), (strB "k", BVal.int 7)]) ∧
    lookup_kv (build_map [(strB "k", BVal.int 1), (strB "k", BVal.int 7)]) (strB "k")
      = some (BVal.int 7) :=
  ⟨(C3_amended_last_wins [(strB "k", BVal.int 1), (strB "k", BVal.int 7)]).2.1 rfl,
   (C3_amended_last_wins [(strB "k", BVal.int 1), (strB "k", BVal.int 7)]).2.2
     [(strB "k", BVal.int 1)] [] (strB "k") (BVal.int 7) rfl (by simp)⟩

/-- **C4.** Every successful exchange returns a non-empty Response sequence
in which exactly the last element carries a `status` field, and the
sequence is, element for element and in order, the successful conversion of
the consumed prefix of the connection's value stream (arrival order). -/
theorem C4_successful_exchange_shape : ∀ (vs : List BVal) (rs : List Resp),
    nrepl_op vs = .ok rs →
    (∃ mid lst, rs = mid ++ [lst] ∧ is_final_resp lst = true ∧
      ∀ r ∈ mid, is_final_resp r = false) ∧
    (∃ consumed rest, vs = consumed ++ rest ∧
      consumed.map resp_try_from = rs.map PRes.ok) := by
  intro vs
  induction vs with
  | nil => intro rs h; simp [nrepl_op] at h
  | cons v rest ih =>
    intro rs h
    simp only [nrepl_op] at h
    split at h
    · cases h
    · cases h
    · rename_i r0 heq
      split at h
      · rename_i hfin
        cases h
        exact ⟨⟨[], r0, rfl, hfin, by intro r hr; cases hr⟩,
               ⟨[v], rest, rfl, by simp [heq]⟩⟩
      · rename_i hfin
        split at h
        · rename_i rs' heq2
          cases h
          obtain ⟨⟨mid, lst, hrs, hlst, hmid⟩, ⟨consumed, rest', hvs, hmap⟩⟩ := ih rs' heq2
          refine ⟨⟨r0 :: mid, lst, by rw [hrs]; rfl, hlst, ?_⟩,
                  ⟨v :: consumed, rest', by rw [hvs]; rfl, ?_⟩⟩
          · intro r hr
            rcases List.mem_cons.mp hr with rfl | hr
            · simpa using hfin
            · exact hmid r hr
          · simp [heq, hmap]
        · cases h
        · cases h

/-- Witness for C4 at a one-Response exchange whose Response is terminal. -/
theorem C4_witness :
    (∃ mid lst,
        ([[(strB "status", BVal.list [BVal.bytes (strB "done")])]] : List Resp)
          = mid ++ [lst] ∧
        is_final_resp lst = true ∧ ∀ r ∈ mid, is_final_resp r = false) ∧
    (∃ consumed rest,
        ([BVal.dict [(strB "status", BVal.list [BVal.bytes (strB "done")])]] : List BVal)
          = consumed ++ rest ∧
        consumed.map resp_try_from =
          ([[(strB "status", BVal.list [BVal.bytes (strB "done")])]] : List Resp).map
            PRes.ok) :=
  C4_successful_exchange_shape _ _ rfl

/-- **C5.** Encoding an operation is insertion-order independent (two
permuted argument lists produce byte-identical output), and the emitted
dict keys appear in byte-wise ascending (lexicographic) order. -/
theorem C5_encoding_deterministic : ∀ (name : List Nat)
    (args1 args2 : List (List Nat × List Nat)), args1.Perm args2 →
    encode_op name args1 = encode_op name args2 ∧
    List.Sorted (fun a b => lexLeB a b = true)
      ((sort_pairs (op_pairs name args1)).map Prod.fst) := by
  intro name args1 args2 hperm
  have h1 := List.sorted_insertionSort pairLe (op_pairs name args1)
  have h2 := List.sorted_insertionSort pairLe (op_pairs name args2)
  have hps : (sort_pairs (op_pairs name args1)).Perm (sort_pairs (op_pairs name args2)) :=
    ((List.perm_insertionSort pairLe _).trans (hperm.cons _)).trans
      (List.perm_insertionSort pairLe _).symm
  have heq : sort_pairs (op_pairs name args1) = sort_pairs (op_pairs name args2) :=
    List.eq_of_perm_of_sorted hps h1 h2
  refine ⟨by unfold encode_op; rw [heq], ?_⟩
  exact (List.pairwise_map).mpr (h1.imp fun hab => pairLe_fst hab)

/-- Witness for C5: swapping two arguments leaves the bytes unchanged. -/
theorem C5_witness :
    encode_op (strB "x") [(strB "b", strB "1"), (strB "a", strB "2")]
      = encode_op (strB "x") [(strB "a", strB "2"), (strB "b", strB "1")] ∧
    List.Sorted (fun a b => lexLeB a b = true)
      ((sort_pairs (op_pairs (strB "x")
          [(strB "b", strB "1"), (strB "a", strB "2")])).map Prod.fst) :=
  C5_encoding_deterministic (strB "x") _ _ (List.Perm.swap _ _ _)

/-- **C6.** Session resolution: a persisted identifier that the live server
still lists is returned unchanged with no session-creation call and no
store mutation; with no persisted identifier, or a stale one, a fresh
session is created, persisted for the address (overwriting any stale
entry), and the fresh identifier — not the stale one — is returned. -/
theorem C6_session_resolution : ∀ (store : List (List Nat × List Nat)) (addr : List Nat)
    (server_sessions : List (List Nat)) (fresh_id sid : List Nat),
    (lookup_assoc store addr = some sid →
      session_id_exists server_sessions sid = true →
      get_existing_session_id store addr server_sessions fresh_id = ⟨sid, store, false⟩) ∧
    (lookup_assoc store addr = none →
      get_existing_session_id store addr server_sessions fresh_id
          = ⟨fresh_id, insert_assoc store addr fresh_id, true⟩ ∧
        lookup_assoc (insert_assoc store addr fresh_id) addr = some fresh_id) ∧
    (lookup_assoc store addr = some sid →
      session_id_exists server_sessions sid = false →
      get_existing_session_id store addr server_sessions fresh_id
          = ⟨fresh_id, insert_assoc store addr fresh_id, true⟩ ∧
        lookup_assoc (insert_assoc store addr fresh_id) addr = some fresh_id) := by
  intro store addr ss fid sid
  refine ⟨?_, ?_, ?_⟩
  · intro hl he
    simp [get_existing_session_id, hl, he]
  · intro hl
    exact ⟨by simp [get_existing_session_id, hl], lookup_insert_assoc store addr fid⟩
  · intro hl he
    exact ⟨by simp [get_existing_session_id, hl, he], lookup_insert_assoc store addr fid⟩

/-- Witness for C6: a listed cached id is reused; an unlisted one is
replaced by the freshly created id. -/
theorem C6_witness :
    get_existing_session_id [(strB "a", strB "s")] (strB "a") [strB "s"] (strB "f")
      = ⟨strB "s", [(strB "a", strB "s")], false⟩ ∧
    get_existing_session_id [(strB "a", strB "s")] (strB "a") [] (strB "f")
      = ⟨strB "f", [(strB "a", strB "f")], true⟩ :=
  ⟨(C6_session_resolution [(strB "a", strB "s")] (strB "a") [strB "s"]
      (strB "f") (strB "s")).1 rfl rfl,
   ((C6_session_resolution [(strB "a", strB "s")] (strB "a") []
      (strB "f") (strB "s")).2.2 rfl rfl).1⟩

/-- **C7.** End-of-stream is the decoder's sole non-error termination and
only at a top-level value boundary: the empty stream yields no value and no
error, while a terminated run that began inside an open list or map is
either an error or a completed (end-marker-closed) container — never the
"no value" outcome, and never a partial container (concrete truncated
containers below yield `UnexpectedEOF`). -/
theorem C7_eof_top_level_only :
    read_object [] = some (.ok (none, ⟨[], []⟩)) ∧
    (∀ (fuel : Nat) (bs : List Nat) (r), read_object_f fuel ⟨108 :: bs, []⟩ = some r →
      (∃ e, r = .error e) ∨ (∃ v s2, r = .ok (some v, s2))) ∧
    (∀ (fuel : Nat) (bs : List Nat) (r), read_object_f fuel ⟨100 :: bs, []⟩ = some r →
      (∃ e, r = .error e) ∨ (∃ v s2, r = .ok (some v, s2))) ∧
    read_object [108] = some (.error .unexpectedEOF) ∧
    read_object [100] = some (.error .unexpectedEOF) ∧
    read_object (strB "li1e") = some (.error .unexpectedEOF) ∧
    read_object (strB "d1:a") = some (.error .unexpectedEOF) := by
  refine ⟨rfl, ?_, ?_, rfl, rfl, rfl, rfl⟩
  · intro fuel bs r h
    cases fuel with
    | zero => simp [read_object_f] at h
    | succ n =>
      simp [read_object_f, pop_token, decode_token] at h
      exact read_list_f_shape n _ _ r h
  · intro fuel bs r h
    cases fuel with
    | zero => simp [read_object_f] at h
    | succ n =>
      simp [read_object_f, pop_token, decode_token] at h
      exact read_dict_f_shape n _ _ r h

/-- Witness for C7: a decode that began inside an open list terminates with
an error outcome, as the theorem's disjunction asserts. -/
theorem C7_witness :
    (∃ e, (Except.error BErr.unexpectedEOF : Except BErr (Option Object × DecSt))
        = .error e) ∨
    (∃ v s2, (Except.error BErr.unexpectedEOF : Except BErr (Option Object × DecSt))
        = .ok (some v, s2)) :=
  C7_eof_top_level_only.2.1 4 [] (.error .unexpectedEOF) rfl

/-- **C8.** Decoding `"i-42"` (no terminator) yields the truncated-input
error `UnexpectedEOF` — not a value and not `MalformedInput`; with the
terminator it succeeds; a non-parsable literal yields `MalformedInput`; and
in general an integer token whose stream ends before a terminator byte
yields `UnexpectedEOF`. -/
theorem C8_truncated_vs_malformed :
    read_object (strB "i-42") = some (.error .unexpectedEOF) ∧
    read_object (strB "i-42e") = some (.ok (some (.number (-42)), ⟨[], []⟩)) ∧
    read_object (strB "iabce") = some (.error (.malformedInput "Int parse error")) ∧
    (∀ bs : List Nat, 101 ∉ bs → read_int bs = .error .unexpectedEOF) :=
  ⟨rfl, rfl, rfl, read_int_no_term⟩

/-- Witness for C8's universal part at the byte body of `"i-42"`. -/
theorem C8_witness :
    (101 ∉ ([45, 52, 50] : List Nat)) ∧
    read_int [45, 52, 50] = .error .unexpectedEOF :=
  ⟨by decide, C8_truncated_vs_malformed.2.2.2 [45, 52, 50] (by decide)⟩

/-- **C9.** Encoding the operation `"clone"` with no arguments yields
exactly the bytes `d2:op5:clonee`, and decoding those bytes yields a map
with the single pair `("op", ByteString "clone")`. -/
theorem C9_clone_encoding_roundtrip :
    encode_op (strB "clone") [] = strB "d2:op5:clonee" ∧
    read_object (strB "d2:op5:clonee") =
      some (.ok (some (.dict [(strB "op", .bbytes (strB "clone"))]), ⟨[], []⟩)) :=
  ⟨rfl, rfl⟩

/-- **C10.** Every field name of every Response of a successful exchange is
valid UTF-8; a decoded response map with a non-UTF-8 key makes the
conversion panic (the `String::from_utf8(k).unwrap()` on the key), so it
yields neither a Response value nor a typed error value. -/
theorem C10_field_names_utf8 :
    (∀ (vs : List BVal) (rs : List Resp), nrepl_op vs = .ok rs →
      ∀ r ∈ rs, ∀ p ∈ r, is_valid_utf8 p.1 = true) ∧
    (∀ ps : List (List Nat × BVal), ps.all (fun p => is_valid_utf8 p.1) = false →
      resp_try_from (.dict ps) = .panic) := by
  constructor
  · intro vs rs h r hr p hp
    obtain ⟨v, hv⟩ := nrepl_op_ok_from vs rs h r hr
    exact resp_try_from_ok_keys v r hv p hp
  · intro ps hps
    simp [resp_try_from, hps]

/-- Witness for C10: the `status` key of a successful exchange is valid
UTF-8, and a response map keyed by the lone byte 0xFF panics. -/
theorem C10_witness :
    is_valid_utf8 (strB "status") = true ∧
    resp_try_from (.dict [([255], BVal.int 1)]) = .panic :=
  ⟨C10_field_names_utf8.1 [.dict [(strB "status", .list [.bytes (strB "done")])]]
      [[(strB "status", BVal.list [.bytes (strB "done")])]] rfl
      [(strB "status", BVal.list [.bytes (strB "done")])] (by simp)
      (strB "status", BVal.list [.bytes (strB "done")]) (by simp),
   C10_field_names_utf8.2 [([255], BVal.int 1)] rfl⟩

end UltraNrepl
